import Mathlib

/-!
Shallow embedding of `model/rvae.py` (class `RVAE`): the unified forward
pass, the training step closure returned by `RVAE.trainer`, and the
free-running sampling loop `RVAE.sample`.

Tensors of floats are modelled as (nested) lists of real numbers; the
external collaborator modules (`Embedding`, `Encoder`, `Decoder`, the
batch loader) are modelled as function-valued fields, matching the spec's
description of them as external collaborators. Stochastic draws
(`t.randn`, `F.dropout`, categorical word sampling) are made explicit:
the noise tensor is an argument, dropout and the word sampler are
function fields.
-/

noncomputable section

/-- A float tensor of shape `[batch, d]`, as a list of rows. -/
abbrev Mat : Type := List (List ℝ)

/-- A float tensor of shape `[batch, seq, vocab]`: the decoder logits. -/
abbrev Logits : Type := List (List (List ℝ))

/-- Elementwise combination of two matrices (broadcast-free elementwise
tensor arithmetic such as `logvar - t.pow(mu, 2) - t.exp(logvar) + 1` or
`z * std + mu`). -/
def mat2 (f : ℝ → ℝ → ℝ) (a b : Mat) : Mat :=
  a.zipWith (fun ra rb => ra.zipWith f rb) b

/-- `t.exp(0.5 * logvar)` from `RVAE.forward` line 71: the elementwise
standard deviation. -/
def mat_std (logvar : Mat) : Mat :=
  logvar.map (List.map (fun x => Real.exp (0.5 * x)))

/-- `z = z * std + mu` from `RVAE.forward` line 77, where the incoming
`z` is the standard-normal draw `eps` of line 73 and `std` is
`mat_std logvar`. -/
def reparam_code (eps mu logvar : Mat) : Mat :=
  mat2 (· + ·) (mat2 (· * ·) eps (mat_std logvar)) mu

/-- `kld = (-0.5 * t.sum(logvar - t.pow(mu, 2) - t.exp(logvar) + 1, 1)).sum().squeeze()`
from `RVAE.forward` line 79: the elementwise expression, summed over the
latent dimension (dim 1), scaled by `-0.5`, then summed over the batch. -/
def kld_code (mu logvar : Mat) : ℝ :=
  (((mat2 (fun m l => l - m ^ 2 - Real.exp l + 1) mu logvar).map List.sum).map
    (fun s => -0.5 * s)).sum

/-- Pointwise ternary zip, used to state the spec's one-pass form of the
reparameterization. -/
def zipWith3 (f : α → β → γ → δ) : List α → List β → List γ → List δ
  | a :: as, b :: bs, c :: cs => f a b c :: zipWith3 f as bs cs
  | _, _, _ => []

/-- The reparameterized sample as the spec words it: elementwise
`z = epsilon * exp(0.5 * logvar) + mu` in a single pass. Stated from the
spec for comparison with `reparam_code`. -/
def reparam_spec (eps mu logvar : Mat) : Mat :=
  (eps.zip (mu.zip logvar)).map (fun p =>
    zipWith3 (fun e m l => e * Real.exp (0.5 * l) + m) p.1 p.2.1 p.2.2)

/-- The KL term as the spec words it: for each batch row,
`kld_row = -0.5 * sum_over_L (logvar - mu^2 - exp logvar + 1)`, and the
scalar is the sum of the rows. Stated from the spec for comparison with
`kld_code`. -/
def kld_spec (mu logvar : Mat) : ℝ :=
  ((mu.zip logvar).map (fun p =>
    -0.5 * ((p.1.zip p.2).map (fun q => q.2 - q.1 ^ 2 - Real.exp q.2 + 1)).sum)).sum

lemma zipWith_eq_zip_map (f : α → β → γ) :
    ∀ (a : List α) (b : List β), a.zipWith f b = (a.zip b).map (fun p => f p.1 p.2)
  | [], _ => by simp
  | _ :: _, [] => by simp
  | x :: xs, y :: ys => by
    simp [List.zipWith, List.zip, zipWith_eq_zip_map f xs ys]

/-- Modelled from the spec: `fold` is imported from `utils.functional`,
which is not among the given sources. `RVAE.forward` uses it only to
fold a conjunction of presence checks over its input list, so it is
modelled as a plain left fold. -/
def fold (f : β → α → β) (l : List α) (init : β) : β :=
  l.foldl f init

/-- The input contract asserted on lines 54-58 of `RVAE.forward`:
`z is None and fold(lambda acc p, acc and p is not None, inputs, True)
 or (z is not None and decoder_word_input is not None)`. -/
def forwardContractOk {T : Type} (encoder_word_input : Option T)
    (encoder_character_input : Option T) (decoder_word_input : Option T)
    (z : Option Mat) : Bool :=
  (z.isNone && fold (fun acc p => acc && p.isSome)
    [encoder_word_input, encoder_character_input, decoder_word_input] true)
  || (z.isSome && decoder_word_input.isSome)

/-- The class `RVAE`, with its external collaborator modules
(`Embedding`, `Encoder`, `Decoder`) and the stochastic dropout operator
modelled as function-valued fields. `T` is the type of the embedded /
index tensors fed through the collaborators, `O` the decoder output
(logits) type, `S` the decoder recurrent-state type. `alloc_ok` is the
result of the external `parameters_allocation_check` of line 50. -/
structure RVAE (T O S : Type) where
  embedding : T → T → T
  word_embed : T → T
  encoder : T → Mat
  context_to_mu : Mat → Mat
  context_to_logvar : Mat → Mat
  decoder : T → Mat → Option S → O × S
  dropout : ℝ → T → T
  alloc_ok : Bool

/-- The shared tail of `RVAE.forward` (lines 86-88): embed the decoder
word input, apply dropout, run the decoder on it with the latent vector
and the initial recurrent state. -/
def RVAE.decodeStep {T O S : Type} (m : RVAE T O S) (drop_prob : ℝ)
    (decoder_word_input : T) (zv : Mat) (st : Option S) : O × S :=
  m.decoder (m.dropout drop_prob (m.word_embed decoder_word_input)) zv st

/-- The error message of the `parameters_allocation_check` assert (line 50). -/
def allocErrorMsg : String :=
  "Invalid CUDA options. Parameters should be allocated in the same memory"

/-- The error message of the input-contract assert (lines 54-58). -/
def inputContractMsg : String :=
  "Invalid input. If z is None then encoder and decoder inputs should be passed as arguments"

/-- `RVAE.forward`. The standard-normal draw of line 73 is the explicit
argument `randn`; a failing assert is an `Except.error` with the
assert's message. In the `z is None` branch the context is encoded, `mu`
and `logvar` are projected, `z` is reparameterized and `kld` computed;
in the `z` branch `kld` is `None`. Both branches finish with
`decodeStep` and return `(out, final_state, kld)`. -/
def RVAE.forward {T O S : Type} (m : RVAE T O S) (randn : Mat) (drop_prob : ℝ)
    (encoder_word_input : Option T) (encoder_character_input : Option T)
    (decoder_word_input : Option T)
    (z : Option Mat) (initial_state : Option S) :
    Except String (O × S × Option ℝ) :=
  if m.alloc_ok = false then .error allocErrorMsg
  else if forwardContractOk encoder_word_input encoder_character_input
      decoder_word_input z = false then .error inputContractMsg
  else
    match z, encoder_word_input, encoder_character_input, decoder_word_input with
    | none, some ew, some ec, some dw =>
      let encoder_input := m.embedding ew ec
      let context := m.encoder encoder_input
      let mu := m.context_to_mu context
      let logvar := m.context_to_logvar context
      let zv := reparam_code randn mu logvar
      let kld := kld_code mu logvar
      let r := m.decodeStep drop_prob dw zv initial_state
      .ok (r.1, r.2, some kld)
    | some zv, _, _, some dw =>
      let r := m.decodeStep drop_prob dw zv initial_state
      .ok (r.1, r.2, none)
    | _, _, _, _ => .error inputContractMsg

/-- `F.softmax` on a 2-D tensor: row-wise softmax. One row. -/
def softmaxRow (xs : List ℝ) : List ℝ :=
  (xs.map Real.exp).map (fun e => e / (xs.map Real.exp).sum)

/-- One element of `F.binary_cross_entropy(prediction, target)`:
`-(y * log p + (1 - y) * log (1 - p))`. -/
def bce_elt (p y : ℝ) : ℝ :=
  -(y * Real.log p + (1 - y) * Real.log (1 - p))

/-- `F.binary_cross_entropy(prediction, target, size_average=False)`
(line 116): the elementwise binary cross-entropy summed over every
element of the flattened `[batch*seq_len, vocab]` tensors. -/
def bceSum (prediction target : Mat) : ℝ :=
  ((mat2 bce_elt prediction target).map List.sum).sum

/-- The reconstruction loss as the claim words it: categorical
cross-entropy `-(y * log p)` of the softmaxed flattened logits against
the flattened target, summed over all elements. Stated from the spec
for comparison with `bceSum`, which is what line 116 computes. -/
def crossEntropySum (prediction target : Mat) : ℝ :=
  ((mat2 (fun p y => -(y * Real.log p)) prediction target).map List.sum).sum

/-- Modelled from the spec: `kld_coef` is imported from
`utils.functional`, which is not among the given sources. The spec
describes it only as "a monotonically-increasing annealing coefficient
in [0,1] as a function of step index i (KL annealing)", so it is
modelled as a linear annealing ramp clamped at 1. -/
def kld_coef (i : ℕ) : ℝ :=
  min 1 ((i : ℝ) / 10000)

/-- The training-step closure returned by `RVAE.trainer` (lines 96-124),
without the optimizer side effects: it runs the forward pass in training
mode, flattens logits and target to `[batch*seq_len, vocab]`, softmaxes
the logits, computes `bce = F.binary_cross_entropy(...)/seq_len` and
`loss = (bce + kld_coef i * kld) / batch_size`, and the Python closure
returns the triple `(bce, kld, kld_coef i)`. The batch, drawn inside
the closure from `batch_loader.next_batch`, is passed in explicitly, as
are `batch_size` and `seq_len` (read off `decoder_word_input.size()` in
the source). The result records `loss` (the value handed to
`loss.backward()`) in front of the returned triple, so that the
backpropagated composite loss is observable. -/
def RVAE.train {T S : Type} (m : RVAE T Logits S) (randn : Mat) (i : ℕ)
    (dropout : ℝ) (encoder_word_input encoder_character_input decoder_word_input : T)
    (target : Logits) (batch_size seq_len : ℕ) :
    Except String (ℝ × ℝ × ℝ × ℝ) :=
  match m.forward randn dropout (some encoder_word_input)
      (some encoder_character_input) (some decoder_word_input) none none with
  | .error e => .error e
  | .ok (logits3, _, kldOpt) =>
    let logits := logits3.flatten
    let prediction := logits.map softmaxRow
    let target2 := target.flatten
    let kld := kldOpt.getD 0
    let bce := bceSum prediction target2 / (seq_len : ℝ)
    let loss := (bce + kld_coef i * kld) / (batch_size : ℝ)
    .ok (loss, bce, kld, kld_coef i)

/-- The batch loader, an external collaborator of `RVAE.sample`. Its
`word_to_idx` lookup together with the
`Variable(t.from_numpy(np.array([[word_to_idx[word]]])).long())`
wrapping is modelled as one map from the word to the next decoder input
tensor. `go_input` returns a pair in the source; only the first
component is used. -/
structure BatchLoader (T : Type) where
  go_input : ℕ → T × T
  sample_word_from_distribution : List ℝ → String
  end_token : String
  word_to_idx : String → T

/-- The body of the `for i in range(seq_len)` loop of `RVAE.sample`
(lines 144-164), by recursion on the remaining iterations. Each step
runs the forward pass in conditional mode (its `z` is the `seed`, its
dropout 0, the kld output discarded), flattens and softmaxes the
logits, samples a word from the last row of the prediction, stops
before appending if it is the end token, and otherwise appends
`' ' + word` and feeds the word's index back as the next decoder input.
Besides the accumulated result string the model returns the number of
decoder invocations performed and whether the loop stopped on the end
token, so the loop claims can be stated. -/
def RVAE.sampleLoop {T S : Type} (m : RVAE T Logits S) (bl : BatchLoader T)
    (seed : Mat) : ℕ → T → Option S → String → String × ℕ × Bool
  | 0, _, _, result => (result, 0, false)
  | n + 1, decoder_word_input, initial_state, result =>
    let step := m.decodeStep 0 decoder_word_input seed initial_state
    let prediction := (step.1.flatten).map softmaxRow
    let word := bl.sample_word_from_distribution (prediction.getLastD [])
    if word = bl.end_token then (result, 1, true)
    else
      let r := m.sampleLoop bl seed n (bl.word_to_idx word) (some step.2)
        (result ++ " " ++ word)
      (r.1, r.2.1 + 1, r.2.2)

/-- `RVAE.sample` (lines 128-166): start from `batch_loader.go_input(1)`
with an absent recurrent state and an empty result string, and run the
sampling loop `seq_len` times (`range(seq_len)` is empty for
non-positive `seq_len`, hence `Int.toNat`). -/
def RVAE.sample {T S : Type} (m : RVAE T Logits S) (bl : BatchLoader T)
    (seq_len : ℤ) (seed : Mat) : String × ℕ × Bool :=
  m.sampleLoop bl seed seq_len.toNat (bl.go_input 1).1 none ""

lemma sum_nonpos_of_nonpos (l : List ℝ) (h : ∀ x ∈ l, x ≤ 0) : l.sum ≤ 0 := by
  induction l with
  | nil => simp
  | cons a as ih =>
    simp only [List.sum_cons]
    have ha := h a (by simp)
    have has := ih (fun x hx => h x (by simp [hx]))
    linarith

/-- C3: the kld computed on line 79 of `RVAE.forward` equals the sum
over batch rows (not the mean) of
`kld_row = -0.5 * sum_over_L (logvar - mu^2 - exp logvar + 1)`. -/
theorem kld_code_eq_row_sum (mu logvar : Mat) :
    kld_code mu logvar = kld_spec mu logvar := by
  simp only [kld_code, kld_spec, mat2, zipWith_eq_zip_map, List.map_map]
  rfl

lemma reparam_row (e m l : List ℝ) :
    (e.zipWith (· * ·) (l.map (fun x => Real.exp (0.5 * x)))).zipWith (· + ·) m
      = zipWith3 (fun a b c => a * Real.exp (0.5 * c) + b) e m l := by
  induction e generalizing m l with
  | nil => cases m <;> cases l <;> rfl
  | cons x xs ih =>
    cases m with
    | nil => cases l <;> rfl
    | cons y ys =>
      cases l with
      | nil => rfl
      | cons w ws => simp [zipWith3, ih]

/-- C4: the latent vector produced by the training branch of
`RVAE.forward` is a deterministic function of the noise draw and equals
`epsilon * exp(0.5 * logvar) + mu` elementwise. -/
theorem reparam_code_eq_spec (eps mu logvar : Mat) :
    reparam_code eps mu logvar = reparam_spec eps mu logvar := by
  induction eps generalizing mu logvar with
  | nil => cases mu <;> cases logvar <;> rfl
  | cons e es ih =>
    cases mu with
    | nil =>
      cases logvar <;>
        simp [reparam_code, reparam_spec, mat2, mat_std, List.zipWith]
    | cons m ms =>
      cases logvar with
      | nil => rfl
      | cons l ls =>
        have ihr := ih ms ls
        simp only [reparam_code, reparam_spec, mat2, mat_std, List.map_cons,
          List.zipWith_cons_cons, List.zip_cons_cons, List.map_map] at ihr ⊢
        rw [List.cons.injEq]
        exact ⟨reparam_row e m l, ihr⟩

/-- C6: the kld of line 79 is non-negative for every finite `mu`,
`logvar`, and equals `0` when `mu` and `logvar` are elementwise zero. -/
theorem kld_code_nonneg_and_zero_at_origin (mu logvar : Mat) :
    0 ≤ kld_code mu logvar ∧
      ((∀ r ∈ mu, ∀ x ∈ r, x = (0 : ℝ)) → (∀ r ∈ logvar, ∀ x ∈ r, x = (0 : ℝ)) →
        kld_code mu logvar = 0) := by
  constructor
  · apply List.sum_nonneg
    intro x hx
    simp only [List.mem_map] at hx
    obtain ⟨s, hs, rfl⟩ := hx
    obtain ⟨row, hrow, rfl⟩ := hs
    have hrow_nonpos : row.sum ≤ 0 := by
      apply sum_nonpos_of_nonpos
      intro y hy
      simp only [mat2, zipWith_eq_zip_map, List.mem_map] at hrow
      obtain ⟨p, hp, rfl⟩ := hrow
      simp only [zipWith_eq_zip_map, List.mem_map] at hy
      obtain ⟨q, hq, rfl⟩ := hy
      have h1 := Real.add_one_le_exp q.2
      nlinarith [sq_nonneg q.1]
    linarith
  · intro hmu hlv
    apply List.sum_eq_zero
    intro x hx
    simp only [List.mem_map] at hx
    obtain ⟨s, hs, rfl⟩ := hx
    obtain ⟨row, hrow, rfl⟩ := hs
    have : row.sum = 0 := by
      apply List.sum_eq_zero
      intro y hy
      simp only [mat2, zipWith_eq_zip_map, List.mem_map] at hrow
      obtain ⟨p, hp, rfl⟩ := hrow
      simp only [zipWith_eq_zip_map, List.mem_map] at hy
      obtain ⟨q, hq, rfl⟩ := hy
      obtain ⟨hq1, hq2⟩ := List.of_mem_zip hq
      obtain ⟨hp1, hp2⟩ := List.of_mem_zip hp
      have h1 : q.1 = 0 := hmu _ hp1 _ hq1
      have h2 : q.2 = 0 := hlv _ hp2 _ hq2
      simp [h1, h2, Real.exp_zero]
    rw [this]
    ring

/-- Witness for C6 at `mu = [[0]]`, `logvar = [[0]]`. -/
theorem kld_code_zero_witness :
    kld_code [[0]] [[0]] = 0 ∧ 0 ≤ kld_code [[0]] [[0]] :=
  ⟨(kld_code_nonneg_and_zero_at_origin [[0]] [[0]]).2 (by simp) (by simp),
   (kld_code_nonneg_and_zero_at_origin [[0]] [[0]]).1⟩

/-- A concrete `RVAE` instance over trivial tensor types, used to
instantiate the contract theorems on explicit inputs. -/
def unitRVAE : RVAE Unit Unit Unit where
  embedding := fun _ _ => ()
  word_embed := fun _ => ()
  encoder := fun _ => [[0]]
  context_to_mu := fun _ => [[0]]
  context_to_logvar := fun _ => [[0]]
  decoder := fun _ _ _ => ((), ())
  dropout := fun _ x => x
  alloc_ok := true

/-- C1 counterexample: a call with the encoder inputs, the decoder
input and `z` all present passes the input-contract assert and returns
normally, instead of failing with the input-contract error. -/
theorem forward_all_inputs_proceeds :
    unitRVAE.forward [[0]] 0 (some ()) (some ()) (some ()) (some [[0]]) none
      = .ok ((), (), none) := rfl

/-- C1 (amended): with consistently allocated parameters, a call whose
inputs violate the asserted contract (`z` absent with some training
input missing, or `z` present with the decoder input missing) fails
with the input-contract error, and a call satisfying the asserted
contract returns normally — in particular a call with encoder inputs,
decoder input and `z` all present proceeds rather than failing. -/
theorem forward_contract {T O S : Type} (m : RVAE T O S) (randn : Mat)
    (dp : ℝ) (ew ec dw : Option T) (z : Option Mat) (st : Option S)
    (ha : m.alloc_ok = true) :
    (forwardContractOk ew ec dw z = false →
      m.forward randn dp ew ec dw z st = .error inputContractMsg) ∧
    (forwardContractOk ew ec dw z = true →
      ∃ r, m.forward randn dp ew ec dw z st = .ok r) := by
  constructor
  · intro h
    simp [RVAE.forward, ha, h]
  · intro h
    rcases z with _ | zv <;> rcases ew with _ | ewv <;> rcases ec with _ | ecv <;>
      rcases dw with _ | dwv <;>
      simp_all [RVAE.forward, forwardContractOk, fold, ha]

/-- Witness for C1 (amended): a training-mode call missing its decoder
input fails with the input-contract error. -/
theorem forward_contract_witness :
    unitRVAE.forward [[0]] 0 (some ()) (some ()) none none none
      = .error inputContractMsg :=
  (forward_contract unitRVAE [[0]] 0 (some ()) (some ()) none none none rfl).1 rfl

/-- C2: every successful forward call returns a present kld exactly when
`z` was absent (training mode) and an absent kld exactly when `z` was
supplied (conditional mode). -/
theorem forward_kld_presence {T O S : Type} (m : RVAE T O S) (randn : Mat)
    (dp : ℝ) (ew ec dw : Option T) (z : Option Mat) (st : Option S)
    (o : O) (s : S) (kldOpt : Option ℝ)
    (h : m.forward randn dp ew ec dw z st = .ok (o, s, kldOpt)) :
    (z.isNone → kldOpt.isSome) ∧ (z.isSome → kldOpt = none) := by
  cases hA : m.alloc_ok <;>
    rcases z with _ | zv <;> rcases ew with _ | ewv <;> rcases ec with _ | ecv <;>
    rcases dw with _ | dwv <;>
    simp_all [RVAE.forward, forwardContractOk, fold]
  obtain ⟨-, -, rfl⟩ := h
  simp

/-- Witness for C2: a concrete training-mode call yields a present kld. -/
theorem forward_kld_presence_witness :
    ((none : Option Mat).isNone → (some (kld_code [[0]] [[0]])).isSome) ∧
    ((none : Option Mat).isSome → (some (kld_code [[0]] [[0]])) = none) :=
  forward_kld_presence unitRVAE [[0]] 0 (some ()) (some ()) (some ()) none none
    () () (some (kld_code [[0]] [[0]])) rfl

/-- C9: the KL annealing coefficient is non-decreasing in the step
index and lies within `[0, 1]` for every step index. -/
theorem kld_coef_monotone_bounded (i j : ℕ) :
    (i ≤ j → kld_coef i ≤ kld_coef j) ∧ 0 ≤ kld_coef i ∧ kld_coef i ≤ 1 := by
  refine ⟨fun hij => ?_, ?_, min_le_left 1 _⟩
  · unfold kld_coef
    gcongr
  · unfold kld_coef
    exact le_min zero_le_one (by positivity)

/-- Witness for C9 at `i = 1`, `j = 2`. -/
theorem kld_coef_monotone_bounded_witness :
    kld_coef 1 ≤ kld_coef 2 ∧ 0 ≤ kld_coef 1 ∧ kld_coef 1 ≤ 1 :=
  ⟨(kld_coef_monotone_bounded 1 2).1 (by decide),
   (kld_coef_monotone_bounded 1 2).2⟩

/-- A concrete `RVAE` instance whose decoder outputs one step of
two-word-vocabulary logits, used to instantiate the sampling-loop and
training-step theorems on explicit inputs. -/
def logitRVAE : RVAE Unit Logits Unit where
  embedding := fun _ _ => ()
  word_embed := fun _ => ()
  encoder := fun _ => [[0]]
  context_to_mu := fun _ => [[0]]
  context_to_logvar := fun _ => [[0]]
  decoder := fun _ _ _ => ([[[0, 0]]], ())
  dropout := fun _ x => x
  alloc_ok := true

/-- A concrete batch loader whose word sampler always returns `w` and
whose end token is `e`. -/
def constLoader (w e : String) : BatchLoader Unit where
  go_input := fun _ => ((), ())
  sample_word_from_distribution := fun _ => w
  end_token := e
  word_to_idx := fun _ => ()

/-- C10: a sampling run with a non-positive maximum length performs no
decoder step and returns the empty string. -/
theorem sample_nonpos_len {T S : Type} (m : RVAE T Logits S)
    (bl : BatchLoader T) (seq_len : ℤ) (seed : Mat) (h : seq_len ≤ 0) :
    m.sample bl seq_len seed = ("", 0, false) := by
  unfold RVAE.sample
  have hz : seq_len.toNat = 0 := by omega
  rw [hz]
  rfl

/-- Witness for C10 at `seq_len = -3`. -/
theorem sample_nonpos_len_witness :
    logitRVAE.sample (constLoader "a" "e") (-3) [[0]] = ("", 0, false) :=
  sample_nonpos_len logitRVAE (constLoader "a" "e") (-3) [[0]] (by decide)

/-- C7: if the word sampled from the first decoder step's distribution
is the end token, the sampling loop stops after exactly one decoder
step, the end token is not appended, and the result string is empty. -/
theorem sample_end_token_first {T S : Type} (m : RVAE T Logits S)
    (bl : BatchLoader T) (seq_len : ℤ) (seed : Mat) (h1 : 1 ≤ seq_len)
    (h2 : bl.sample_word_from_distribution
        ((((m.decodeStep 0 (bl.go_input 1).1 seed none).1.flatten).map
          softmaxRow).getLastD []) = bl.end_token) :
    m.sample bl seq_len seed = ("", 1, true) := by
  unfold RVAE.sample
  obtain ⟨n, hn⟩ : ∃ n, seq_len.toNat = n + 1 := ⟨seq_len.toNat - 1, by omega⟩
  rw [hn]
  simp only [RVAE.sampleLoop]
  rw [if_pos h2]

/-- Witness for C7: a loader whose sampler always returns the end token,
with length budget 3. -/
theorem sample_end_token_first_witness :
    logitRVAE.sample (constLoader "e" "e") 3 [[0]] = ("", 1, true) :=
  sample_end_token_first logitRVAE (constLoader "e" "e") 3 [[0]] (by decide) rfl

lemma sampleLoop_no_end {T S : Type} (m : RVAE T Logits S)
    (bl : BatchLoader T) (seed : Mat)
    (h : ∀ d, bl.sample_word_from_distribution d ≠ bl.end_token) :
    ∀ (n : ℕ) (dwi : T) (st : Option S) (res : String),
      ∃ ws : List String, ws.length = n ∧
        m.sampleLoop bl seed n dwi st res
          = (ws.foldl (fun a w => a ++ " " ++ w) res, n, false) := by
  intro n
  induction n with
  | zero => exact fun dwi st res => ⟨[], rfl, rfl⟩
  | succ k ih =>
    intro dwi st res
    obtain ⟨ws, hlen, hr⟩ := ih
      (bl.word_to_idx (bl.sample_word_from_distribution
        ((((m.decodeStep 0 dwi seed st).1.flatten).map softmaxRow).getLastD [])))
      (some (m.decodeStep 0 dwi seed st).2)
      (res ++ " " ++ bl.sample_word_from_distribution
        ((((m.decodeStep 0 dwi seed st).1.flatten).map softmaxRow).getLastD []))
    refine ⟨bl.sample_word_from_distribution
        ((((m.decodeStep 0 dwi seed st).1.flatten).map softmaxRow).getLastD [])
        :: ws, by simp [hlen], ?_⟩
    simp only [RVAE.sampleLoop]
    rw [if_neg (h _)]
    rw [hr]
    simp [hlen]

/-- C8: with length budget 5 and a sampler that never returns the end
token, the sampling loop performs exactly 5 decoder steps, appends
exactly 5 words, and stops by exhausting the budget, not by end-token
detection. -/
theorem sample_budget_exhaustion {T S : Type} (m : RVAE T Logits S)
    (bl : BatchLoader T) (seed : Mat)
    (h : ∀ d, bl.sample_word_from_distribution d ≠ bl.end_token) :
    ∃ ws : List String, ws.length = 5 ∧
      m.sample bl 5 seed = (ws.foldl (fun a w => a ++ " " ++ w) "", 5, false) := by
  unfold RVAE.sample
  exact sampleLoop_no_end m bl seed h 5 (bl.go_input 1).1 none ""

/-- Witness for C8: a loader whose sampler always returns `"a"` with end
token `"e"`. -/
theorem sample_budget_exhaustion_witness :
    ∃ ws : List String, ws.length = 5 ∧
      logitRVAE.sample (constLoader "a" "e") 5 [[0]]
        = (ws.foldl (fun a w => a ++ " " ++ w) "", 5, false) :=
  sample_budget_exhaustion logitRVAE (constLoader "a" "e") [[0]]
    (by intro d; simp [constLoader])

lemma forward_train_mode {T O S : Type} (m : RVAE T O S) (randn : Mat)
    (dp : ℝ) (ew ec dw : T) (st : Option S) (ha : m.alloc_ok = true) :
    m.forward randn dp (some ew) (some ec) (some dw) none st
      = .ok ((m.decodeStep dp dw
            (reparam_code randn (m.context_to_mu (m.encoder (m.embedding ew ec)))
              (m.context_to_logvar (m.encoder (m.embedding ew ec)))) st).1,
          (m.decodeStep dp dw
            (reparam_code randn (m.context_to_mu (m.encoder (m.embedding ew ec)))
              (m.context_to_logvar (m.encoder (m.embedding ew ec)))) st).2,
          some (kld_code (m.context_to_mu (m.encoder (m.embedding ew ec)))
            (m.context_to_logvar (m.encoder (m.embedding ew ec))))) := by
  simp [RVAE.forward, forwardContractOk, fold, ha]

/-- C5 (amended): every successful training step computes the
reconstruction loss as the summed elementwise binary cross-entropy of
the softmaxed flattened logits against the flattened target divided by
`seq_len`, backpropagates the composite loss
`(reconstruction + kld_coef i * kld) / batch_size`, and returns the
triple `(reconstruction, kld, kld_coef i)`. -/
theorem train_step_formulas {T S : Type} (m : RVAE T Logits S) (randn : Mat)
    (i : ℕ) (dropout : ℝ) (ew ec dw : T) (target : Logits) (bs sl : ℕ)
    (L B K C : ℝ)
    (h : m.train randn i dropout ew ec dw target bs sl = .ok (L, B, K, C)) :
    ∃ (logits3 : Logits) (s : S) (kld : ℝ),
      m.forward randn dropout (some ew) (some ec) (some dw) none none
          = .ok (logits3, s, some kld) ∧
        B = bceSum ((logits3.flatten).map softmaxRow) target.flatten / (sl : ℝ) ∧
        K = kld ∧
        L = (B + kld_coef i * K) / (bs : ℝ) ∧
        C = kld_coef i := by
  cases hA : m.alloc_ok with
  | false =>
    rw [RVAE.train, show m.forward randn dropout (some ew) (some ec) (some dw)
      none none = .error allocErrorMsg from by simp [RVAE.forward, hA]] at h
    exact absurd h (by simp)
  | true =>
    rw [RVAE.train, forward_train_mode m randn dropout ew ec dw none hA] at h
    simp only [Except.ok.injEq, Prod.mk.injEq, Option.getD_some] at h
    obtain ⟨hL, hB, hK, hC⟩ := h
    exact ⟨_, _, _, forward_train_mode m randn dropout ew ec dw none hA,
      hB.symm, hK.symm, by rw [← hL, ← hB, ← hK], hC.symm⟩

/-- C5 counterexample: at a concrete batch (one sequence position, a
two-word vocabulary, uniform logits, one-hot target) the training step
returns the reconstruction loss `2 * log 2` — the summed elementwise
binary cross-entropy of line 116 — while the claim's formula,
categorical cross-entropy of the softmaxed logits against the target
summed over all elements and divided by `seq_len`, gives `log 2`: the
two are different. -/
theorem train_bce_not_crossEntropySum :
    logitRVAE.train [[0]] 0 0 () () () [[[1, 0]]] 1 1
        = .ok (2 * Real.log 2, 2 * Real.log 2, 0, 0) ∧
      crossEntropySum ((([[[0, 0]]] : Logits).flatten).map softmaxRow)
          (([[[1, 0]]] : Logits).flatten) / (1 : ℝ) = Real.log 2 ∧
      (2 : ℝ) * Real.log 2 ≠ Real.log 2 := by
  have h12 : Real.log (1 / 2) = -Real.log 2 := by
    rw [one_div, Real.log_inv]
  refine ⟨?_, ?_, ?_⟩
  · rw [RVAE.train, forward_train_mode logitRVAE [[0]] 0 () () () none rfl]
    simp only [logitRVAE, RVAE.decodeStep, kld_code, mat2, mat_std, softmaxRow,
      bceSum, bce_elt, kld_coef, Real.exp_zero, List.flatten, List.map,
      List.zipWith, List.sum_cons, List.sum_nil, Option.getD_some]
    norm_num [h12]
    ring
  · simp only [crossEntropySum, mat2, softmaxRow, List.flatten, List.map,
      List.zipWith, List.sum_cons, List.sum_nil, Real.exp_zero]
    norm_num [h12]
  · intro hcontra
    have hp : 0 < Real.log 2 := Real.log_pos (by norm_num)
    linarith

/-- Witness for C5 (amended) at the concrete batch of the
counterexample. -/
theorem train_step_formulas_witness :
    ∃ (logits3 : Logits) (s : Unit) (kld : ℝ),
      logitRVAE.forward [[0]] 0 (some ()) (some ()) (some ()) none none
          = .ok (logits3, s, some kld) ∧
        2 * Real.log 2
          = bceSum ((logits3.flatten).map softmaxRow)
              ([[[1, 0]]] : Logits).flatten / ((1 : ℕ) : ℝ) ∧
        (0 : ℝ) = kld ∧
        2 * Real.log 2
          = (2 * Real.log 2 + kld_coef 0 * (0 : ℝ)) / ((1 : ℕ) : ℝ) ∧
        (0 : ℝ) = kld_coef 0 := by
  apply train_step_formulas logitRVAE [[0]] 0 0 () () () [[[1, 0]]] 1 1
  have h12 : Real.log (1 / 2) = -Real.log 2 := by
    rw [one_div, Real.log_inv]
  rw [RVAE.train, forward_train_mode logitRVAE [[0]] 0 () () () none rfl]
  simp only [logitRVAE, RVAE.decodeStep, kld_code, mat2, mat_std, softmaxRow,
    bceSum, bce_elt, kld_coef, Real.exp_zero, List.flatten, List.map,
    List.zipWith, List.sum_cons, List.sum_nil, Option.getD_some]
  norm_num [h12]
  ring
